import Mathlib

set_option maxHeartbeats 1000000

namespace BleMidi

/-!
Shallow embedding of the BLE MIDI backend (`src/backend/bluetooth/mod.rs`):
the stateful notification decoder `decode_ble_midi` with its helpers
`extend_sysex`, `collect_data` (the inner data-byte loop) and
`expected_data_length`, the ignore filter `should_ignore` with the message
loop of `process_notification`, the packet encoder `encode_ble_midi_packets`,
and the port equality of `BluetoothPort`.

Bytes are `Nat` (the Rust code works on `u8`; no byte arithmetic occurs, only
the top-bit test `byte & 0x80`, embedded as bit 7 via division).  The Rust
loops are embedded as fuel-indexed recursions so that every definition is
executable by the kernel; `none` models either fuel exhaustion or an
out-of-bounds slice index (a Rust panic).  `decode_ble_midi` supplies
`payload.length + 1` fuel, which is proved sufficient below
(`decode_ble_midi` never returns `none`).
-/

/-- The per-connection parser state (struct `ParserState`): an optional
retained running-status byte and an optional in-progress SysEx buffer. -/
structure ParserState where
  running_status : Option Nat
  sysex_buffer : Option (List Nat)
  deriving DecidableEq, Repr

/-- `ParserState::new()` (= `Default`): both fields empty. -/
def ParserState.new : ParserState := ⟨none, none⟩

/-- Embeds the Rust test `byte & 0x80 != 0`: bit 7 of the byte. -/
def status_bit (b : Nat) : Bool := b / 128 % 2 == 1

/-- `expected_data_length`: expected data-byte count per status byte. -/
def expected_data_length (status : Nat) : Option Nat :=
  if 0x80 ≤ status ∧ status ≤ 0xBF then some 2
  else if 0xC0 ≤ status ∧ status ≤ 0xDF then some 1
  else if 0xE0 ≤ status ∧ status ≤ 0xEF then some 2
  else if status = 0xF1 then some 1
  else if status = 0xF2 then some 2
  else if status = 0xF3 then some 1
  else if status = 0xF6 then some 0
  else none

/-- `extend_sysex(buffer, payload, idx)`: append data bytes to the SysEx
buffer; if the next top-bit byte is `0xF7`, append it too and report the
SysEx finished.  Returns `(buffer, new idx, finished)`. -/
def extend_sysex : Nat → List Nat → List Nat → Nat → Option (List Nat × Nat × Bool)
  | 0, _, _, _ => none
  | fuel + 1, payload, buffer, idx =>
    match payload[idx]? with
    | none => some (buffer, idx, false)
    | some byte =>
      if status_bit byte then
        if byte = 0xF7 then some (buffer ++ [byte], idx + 1, true)
        else some (buffer, idx, false)
      else extend_sysex fuel payload (buffer ++ [byte]) (idx + 1)

/-- The inner data-byte loop of `decode_ble_midi`'s default status arm:
consume data bytes into `message` until a top-bit byte, end of payload, or
(when `expected = some e`) `e` data bytes.  Returns
`(message, new idx, data_bytes)`. -/
def collect_data : Nat → List Nat → Option Nat → List Nat → Nat → Nat →
    Option (List Nat × Nat × Nat)
  | 0, _, _, _, _, _ => none
  | fuel + 1, payload, expected, message, idx, data_bytes =>
    match payload[idx]? with
    | none => some (message, idx, data_bytes)
    | some byte =>
      if status_bit byte then some (message, idx, data_bytes)
      else
        match expected with
        | some e =>
          if data_bytes + 1 ≥ e then some (message ++ [byte], idx + 1, data_bytes + 1)
          else collect_data fuel payload expected (message ++ [byte]) (idx + 1) (data_bytes + 1)
        | none => collect_data fuel payload expected (message ++ [byte]) (idx + 1) (data_bytes + 1)

/-- Result of one iteration of the outer `while` loop of `decode_ble_midi`:
either the loop terminates (`done`) or continues at a new index (`next`). -/
inductive DecodeStep where
  | done : List (List Nat) → ParserState → DecodeStep
  | next : List (List Nat) → ParserState → Nat → DecodeStep

/-- The accumulated messages of a step result. -/
def DecodeStep.msgs : DecodeStep → List (List Nat)
  | .done m _ => m
  | .next m _ _ => m

/-- The parser state of a step result. -/
def DecodeStep.state : DecodeStep → ParserState
  | .done _ s => s
  | .next _ s _ => s

/-- The `match status_byte` dispatch of `decode_ble_midi`: `0xF0` starts a
SysEx, `0xF7` closes one, statuses `≥ 0xF8` emit a single byte (and, in this
code, clear running status), anything else consumes data bytes per
`expected_data_length`.  Returns the new messages, state and index. -/
def dispatch_status (fuel : Nat) (payload : List Nat) (state : ParserState)
    (msgs : List (List Nat)) (status_byte : Nat) (idx : Nat) :
    Option (List (List Nat) × ParserState × Nat) :=
  if status_byte = 0xF0 then
    match extend_sysex fuel payload [0xF0] idx with
    | none => none
    | some (buf, next_idx, finished) =>
      if finished then
        some (msgs ++ [buf], ⟨none, none⟩, next_idx)
      else
        some (msgs, ⟨none, some buf⟩, next_idx)
  else if status_byte = 0xF7 then
    match state.sysex_buffer with
    | some buffer => some (msgs ++ [buffer ++ [0xF7]], ⟨none, none⟩, idx)
    | none => some (msgs ++ [[0xF7]], ⟨none, none⟩, idx)
  else if 0xF8 ≤ status_byte then
    some (msgs ++ [[status_byte]], ⟨none, state.sysex_buffer⟩, idx)
  else
    match collect_data fuel payload (expected_data_length status_byte) [status_byte] idx 0 with
    | none => none
    | some (message, next_idx, data_bytes) =>
      match expected_data_length status_byte with
      | some e =>
        if data_bytes = e then
          some (msgs ++ [message],
            ⟨if status_byte < 0xF0 then some status_byte else none, state.sysex_buffer⟩,
            next_idx)
        else
          some (msgs, state, next_idx)
      | none =>
        some (msgs ++ [message], ⟨none, state.sysex_buffer⟩, next_idx)

/-- Reading the status byte (lines 610–620 of the Rust source): a top-bit
byte is consumed as the status; otherwise the retained running status is
reused at the same index; with no running status the byte is skipped.  The
`payload[idx]?` read models the unguarded `payload[idx]` slice index: `none`
would be an out-of-bounds panic. -/
def status_step (fuel : Nat) (payload : List Nat) (state : ParserState)
    (msgs : List (List Nat)) (idx : Nat) : Option DecodeStep :=
  match payload[idx]? with
  | none => none
  | some b =>
    if status_bit b then
      match dispatch_status fuel payload state msgs b (idx + 1) with
      | none => none
      | some (msgs', state', next_idx) => some (.next msgs' state' next_idx)
    else
      match state.running_status with
      | some s =>
        match dispatch_status fuel payload state msgs s idx with
        | none => none
        | some (msgs', state', next_idx) => some (.next msgs' state' next_idx)
      | none => some (.next msgs state (idx + 1))

/-- The in-progress-SysEx block of `decode_ble_midi` (lines 593–608): extend
the carried buffer; if that finished the SysEx, emit it; if the index moved,
continue the outer loop, otherwise fall through to status handling. -/
def sysex_step (fuel : Nat) (payload : List Nat) (state : ParserState)
    (msgs : List (List Nat)) (idx : Nat) : Option DecodeStep :=
  match state.sysex_buffer with
  | none => status_step fuel payload state msgs idx
  | some buffer =>
    match extend_sysex fuel payload buffer idx with
    | none => none
    | some (buf, next_idx, finished) =>
      if finished then
        if next_idx = idx then
          status_step fuel payload ⟨state.running_status, none⟩ (msgs ++ [buf]) idx
        else
          some (.next (msgs ++ [buf]) ⟨state.running_status, none⟩ next_idx)
      else
        if next_idx = idx then
          status_step fuel payload ⟨state.running_status, some buf⟩ msgs idx
        else
          some (.next msgs ⟨state.running_status, some buf⟩ next_idx)

/-- One iteration of the outer `while idx < payload.len()` loop: exit at end
of payload; skip a data byte as stray; otherwise skip the top-bit byte as a
timestamp, exit if it was the last byte, and run the SysEx/status steps. -/
def decode_step (fuel : Nat) (payload : List Nat) (state : ParserState)
    (msgs : List (List Nat)) (idx : Nat) : Option DecodeStep :=
  match payload[idx]? with
  | none => some (.done msgs state)
  | some byte =>
    if status_bit byte then
      if payload.length ≤ idx + 1 then some (.done msgs state)
      else sysex_step fuel payload state msgs (idx + 1)
    else some (.next msgs state (idx + 1))

/-- The outer loop of `decode_ble_midi`, iterated on fuel. -/
def decode_loop : Nat → List Nat → ParserState → List (List Nat) → Nat →
    Option (List (List Nat) × ParserState)
  | 0, _, _, _, _ => none
  | fuel + 1, payload, state, msgs, idx =>
    match decode_step fuel payload state msgs idx with
    | none => none
    | some (.done msgs' state') => some (msgs', state')
    | some (.next msgs' state' idx') => decode_loop fuel payload state' msgs' idx'

/-- `decode_ble_midi(payload, state)`: decode one BLE notification payload,
starting at index 1 (byte 0 is the packet header).  Returns the emitted
messages and the updated parser state. -/
def decode_ble_midi (payload : List Nat) (state : ParserState) :
    Option (List (List Nat) × ParserState) :=
  decode_loop (payload.length + 1) payload state [] 1

/-- Modelled from the spec: the `Ignore` flag set of the common façade (the
type `crate::Ignore` is not among the provided sources).  Per the spec it is
a set over `{Sysex, Time, ActiveSense}`. -/
structure Ignore where
  sysex : Bool
  time : Bool
  activeSense : Bool
  deriving DecidableEq, Repr

/-- `should_ignore(ignore_flags, status)`. -/
def should_ignore (ignore_flags : Ignore) (status : Nat) : Bool :=
  (status == 0xF0 && ignore_flags.sysex)
    || (status == 0xF1 && ignore_flags.time)
    || (status == 0xF8 && ignore_flags.time)
    || (status == 0xFE && ignore_flags.activeSense)

/-- The per-message test of `process_notification`'s delivery loop: skip
empty messages, skip ignored ones, deliver the rest. -/
def message_passes (ignore_flags : Ignore) (m : List Nat) : Bool :=
  !m.isEmpty && !should_ignore ignore_flags (m.headD 0)

/-- `process_notification`: drop payloads shorter than 2 bytes, otherwise
decode and deliver every non-empty, non-ignored message to the callback (the
result lists the delivered messages in order). -/
def process_notification (ignore_flags : Ignore) (payload : List Nat)
    (state : ParserState) : Option (List (List Nat) × ParserState) :=
  if payload.length < 2 then some ([], state)
  else
    match decode_ble_midi payload state with
    | none => none
    | some (msgs, state') => some (msgs.filter (message_passes ignore_flags), state')

/-- The chunking loop of `encode_ble_midi_packets`: 18 message bytes per
packet behind the fixed `0x80 0x80` header/timestamp pair.  Fuel-indexed;
`encode_ble_midi_packets` supplies `message.length` fuel, which is
sufficient (one chunk consumes at least one fuel unit and 18 bytes). -/
def encode_chunks : Nat → List Nat → List (List Nat)
  | _, [] => []
  | 0, _ => []
  | fuel + 1, message => (0x80 :: 0x80 :: message.take 18) :: encode_chunks fuel (message.drop 18)

/-- `encode_ble_midi_packets(message)`. -/
def encode_ble_midi_packets (message : List Nat) : List (List Nat) :=
  if message.isEmpty then [] else encode_chunks message.length message

/-- `struct BluetoothPort`, generic over the opaque `PeripheralId` type of
the BLE stack (compared by equality only). -/
structure BluetoothPort (PeripheralId : Type) where
  adapter_index : Nat
  peripheral_id : PeripheralId
  name : String

/-- The `PartialEq` impl of `BluetoothPort`: adapter index and peripheral
identity only; the name does not participate. -/
def BluetoothPort.beq {PeripheralId : Type} [DecidableEq PeripheralId]
    (p q : BluetoothPort PeripheralId) : Bool :=
  decide (p.adapter_index = q.adapter_index) && decide (p.peripheral_id = q.peripheral_id)

/-- `struct MidiInputPort` (derived `PartialEq` delegates to the inner
`BluetoothPort`). -/
structure MidiInputPort (PeripheralId : Type) where
  inner : BluetoothPort PeripheralId

/-- The derived `PartialEq` of `MidiInputPort`. -/
def MidiInputPort.beq {PeripheralId : Type} [DecidableEq PeripheralId]
    (p q : MidiInputPort PeripheralId) : Bool :=
  p.inner.beq q.inner

/-- `struct MidiOutputPort` (derived `PartialEq` delegates to the inner
`BluetoothPort`). -/
structure MidiOutputPort (PeripheralId : Type) where
  inner : BluetoothPort PeripheralId

/-- The derived `PartialEq` of `MidiOutputPort`. -/
def MidiOutputPort.beq {PeripheralId : Type} [DecidableEq PeripheralId]
    (p q : MidiOutputPort PeripheralId) : Bool :=
  p.inner.beq q.inner

/-- Well-formedness of a carried SysEx buffer: non-empty, begins with
`0xF0`, and every later byte has the top bit clear. -/
def sysex_wf : Option (List Nat) → Bool
  | none => true
  | some [] => false
  | some (b :: rest) => b == 0xF0 && rest.all (fun d => !status_bit d)

/-- Well-formedness of a retained running status: a channel-voice status
byte (`0x80..=0xEF`). -/
def running_wf : Option Nat → Bool
  | none => true
  | some s => decide (0x80 ≤ s) && decide (s < 0xF0)

/-- Well-formedness of a whole parser state. -/
def state_wf (s : ParserState) : Bool :=
  running_wf s.running_status && sysex_wf s.sysex_buffer

/-- A decoded message is headed by a status byte: it is non-empty and its
first byte is at least `0x80`. -/
def head_ok (m : List Nat) : Prop := ∃ b t, m = b :: t ∧ 0x80 ≤ b

/-! ### Basic facts about the byte-level helpers -/

theorem le_of_status_bit {b : Nat} (h : status_bit b = true) : 0x80 ≤ b := by
  simp only [status_bit, beq_iff_eq] at h
  omega

theorem sysex_wf_some {l : List Nat} (h : sysex_wf (some l) = true) :
    ∃ rest, l = 0xF0 :: rest ∧ ∀ d ∈ rest, status_bit d = false := by
  match l with
  | [] => simp [sysex_wf] at h
  | b :: rest =>
    simp only [sysex_wf, Bool.and_eq_true, beq_iff_eq, List.all_eq_true,
      Bool.not_eq_true'] at h
    exact ⟨rest, by rw [h.1], h.2⟩

theorem extend_sysex_le : ∀ {fuel : Nat} {payload buffer : List Nat} {idx : Nat}
    {buf : List Nat} {next_idx : Nat} {fin : Bool},
    extend_sysex fuel payload buffer idx = some (buf, next_idx, fin) → idx ≤ next_idx := by
  intro fuel
  induction fuel with
  | zero => intro _ _ _ _ _ _ h; simp [extend_sysex] at h
  | succ fuel ih =>
    intro payload buffer idx buf next_idx fin h
    rw [extend_sysex] at h
    split at h
    · simp only [Option.some.injEq, Prod.mk.injEq] at h; omega
    · split at h
      · split at h
        · simp only [Option.some.injEq, Prod.mk.injEq] at h; omega
        · simp only [Option.some.injEq, Prod.mk.injEq] at h; omega
      · have := ih h; omega

theorem extend_sysex_isSome : ∀ (fuel : Nat) (payload buffer : List Nat) (idx : Nat),
    payload.length - idx < fuel → (extend_sysex fuel payload buffer idx).isSome = true := by
  intro fuel
  induction fuel with
  | zero => intro _ _ _ h; omega
  | succ fuel ih =>
    intro payload buffer idx h
    rw [extend_sysex]
    split
    · rfl
    · rename_i byte hb
      split
      · split <;> rfl
      · have hlt : idx < payload.length := (List.getElem?_eq_some.mp hb).1
        exact ih payload (buffer ++ [byte]) (idx + 1) (by omega)

theorem extend_sysex_struct : ∀ {fuel : Nat} {payload buffer : List Nat} {idx : Nat}
    {buf : List Nat} {next_idx : Nat} {fin : Bool},
    extend_sysex fuel payload buffer idx = some (buf, next_idx, fin) →
    ∃ ds, (∀ d ∈ ds, status_bit d = false) ∧
      buf = buffer ++ ds ++ (if fin then [0xF7] else []) := by
  intro fuel
  induction fuel with
  | zero => intro _ _ _ _ _ _ h; simp [extend_sysex] at h
  | succ fuel ih =>
    intro payload buffer idx buf next_idx fin h
    rw [extend_sysex] at h
    split at h
    · simp only [Option.some.injEq, Prod.mk.injEq] at h
      exact ⟨[], by simp, by simp [← h.1, ← h.2.2]⟩
    · rename_i byte hb
      split at h
      · rename_i hs
        split at h
        · rename_i h247
          simp only [Option.some.injEq, Prod.mk.injEq] at h
          refine ⟨[], by simp, ?_⟩
          simp [← h.1, ← h.2.2, h247]
        · simp only [Option.some.injEq, Prod.mk.injEq] at h
          exact ⟨[], by simp, by simp [← h.1, ← h.2.2]⟩
      · rename_i hs
        obtain ⟨ds, hds, heq⟩ := ih h
        refine ⟨byte :: ds, ?_, ?_⟩
        · intro d hd
          rcases List.mem_cons.mp hd with rfl | hd'
          · simpa using hs
          · exact hds d hd'
        · simpa [List.append_assoc] using heq

theorem collect_data_le : ∀ {fuel : Nat} {payload : List Nat} {expected : Option Nat}
    {message : List Nat} {idx data_bytes : Nat}
    {msg' : List Nat} {next_idx db' : Nat},
    collect_data fuel payload expected message idx data_bytes = some (msg', next_idx, db') →
    idx ≤ next_idx := by
  intro fuel
  induction fuel with
  | zero => intro _ _ _ _ _ _ _ _ h; simp [collect_data] at h
  | succ fuel ih =>
    intro payload expected message idx data_bytes msg' next_idx db' h
    rw [collect_data] at h
    split at h
    · simp only [Option.some.injEq, Prod.mk.injEq] at h; omega
    · split at h
      · simp only [Option.some.injEq, Prod.mk.injEq] at h; omega
      · split at h
        · split at h
          · simp only [Option.some.injEq, Prod.mk.injEq] at h; omega
          · have := ih h; omega
        · have := ih h; omega

theorem collect_data_isSome : ∀ (fuel : Nat) (payload : List Nat) (expected : Option Nat)
    (message : List Nat) (idx data_bytes : Nat),
    payload.length - idx < fuel →
    (collect_data fuel payload expected message idx data_bytes).isSome = true := by
  intro fuel
  induction fuel with
  | zero => intro _ _ _ _ _ h; omega
  | succ fuel ih =>
    intro payload expected message idx data_bytes h
    rw [collect_data]
    split
    · rfl
    · rename_i byte hb
      have hlt : idx < payload.length := (List.getElem?_eq_some.mp hb).1
      split
      · rfl
      · split
        · split
          · rfl
          · exact ih payload _ (message ++ [byte]) (idx + 1) (data_bytes + 1) (by omega)
        · exact ih payload _ (message ++ [byte]) (idx + 1) (data_bytes + 1) (by omega)

theorem collect_data_struct : ∀ {fuel : Nat} {payload : List Nat} {expected : Option Nat}
    {message : List Nat} {idx data_bytes : Nat}
    {msg' : List Nat} {next_idx db' : Nat},
    collect_data fuel payload expected message idx data_bytes = some (msg', next_idx, db') →
    ∃ ds, (∀ d ∈ ds, status_bit d = false) ∧ msg' = message ++ ds := by
  intro fuel
  induction fuel with
  | zero => intro _ _ _ _ _ _ _ _ h; simp [collect_data] at h
  | succ fuel ih =>
    intro payload expected message idx data_bytes msg' next_idx db' h
    rw [collect_data] at h
    split at h
    · simp only [Option.some.injEq, Prod.mk.injEq] at h
      exact ⟨[], by simp, by simp [← h.1]⟩
    · rename_i byte hb
      split at h
      · simp only [Option.some.injEq, Prod.mk.injEq] at h
        exact ⟨[], by simp, by simp [← h.1]⟩
      · rename_i hs
        have hlow : status_bit byte = false := by simpa using hs
        split at h
        · split at h
          · simp only [Option.some.injEq, Prod.mk.injEq] at h
            refine ⟨[byte], ?_, by simp [← h.1]⟩
            intro d hd; rcases List.mem_singleton.mp hd with rfl; exact hlow
          · obtain ⟨ds, hds, heq⟩ := ih h
            refine ⟨byte :: ds, ?_, by simpa [List.append_assoc] using heq⟩
            intro d hd
            rcases List.mem_cons.mp hd with rfl | hd'
            · exact hlow
            · exact hds d hd'
        · obtain ⟨ds, hds, heq⟩ := ih h
          refine ⟨byte :: ds, ?_, by simpa [List.append_assoc] using heq⟩
          intro d hd
          rcases List.mem_cons.mp hd with rfl | hd'
          · exact hlow
          · exact hds d hd'

/-! ### Facts about the status dispatch -/

theorem dispatch_status_isSome (fuel : Nat) (payload : List Nat) (state : ParserState)
    (msgs : List (List Nat)) (status_byte idx : Nat)
    (h : payload.length - idx < fuel) :
    (dispatch_status fuel payload state msgs status_byte idx).isSome = true := by
  unfold dispatch_status
  by_cases h240 : status_byte = 0xF0
  · rw [if_pos h240]
    have hx := extend_sysex_isSome fuel payload [0xF0] idx h
    cases hext : extend_sysex fuel payload [0xF0] idx with
    | none => rw [hext] at hx; simp at hx
    | some r =>
      obtain ⟨buf, next_idx, fin⟩ := r
      cases fin <;> rfl
  · rw [if_neg h240]
    by_cases h247 : status_byte = 0xF7
    · rw [if_pos h247]
      cases state.sysex_buffer <;> rfl
    · rw [if_neg h247]
      by_cases hrt : 0xF8 ≤ status_byte
      · rw [if_pos hrt]
        rfl
      · rw [if_neg hrt]
        have hx := collect_data_isSome fuel payload
          (expected_data_length status_byte) [status_byte] idx 0 h
        cases hcol : collect_data fuel payload (expected_data_length status_byte)
            [status_byte] idx 0 with
        | none => rw [hcol] at hx; simp at hx
        | some r =>
          obtain ⟨message, next_idx, db⟩ := r
          cases hexp : expected_data_length status_byte with
          | none => rfl
          | some e => by_cases hdb : db = e <;> simp [hdb]

theorem dispatch_status_le {fuel : Nat} {payload : List Nat} {state : ParserState}
    {msgs m' : List (List Nat)} {status_byte idx : Nat} {s' : ParserState} {i' : Nat}
    (h : dispatch_status fuel payload state msgs status_byte idx = some (m', s', i')) :
    idx ≤ i' := by
  unfold dispatch_status at h
  by_cases h240 : status_byte = 0xF0
  · rw [if_pos h240] at h
    cases hext : extend_sysex fuel payload [0xF0] idx with
    | none => rw [hext] at h; cases h
    | some r =>
      obtain ⟨buf, next_idx, fin⟩ := r
      rw [hext] at h
      have hle := extend_sysex_le hext
      cases fin <;>
        (simp at h; omega)
  · rw [if_neg h240] at h
    by_cases h247 : status_byte = 0xF7
    · rw [if_pos h247] at h
      cases hbuf : state.sysex_buffer <;> rw [hbuf] at h <;>
        (simp at h; omega)
    · rw [if_neg h247] at h
      by_cases hrt : 0xF8 ≤ status_byte
      · rw [if_pos hrt] at h
        simp at h
        omega
      · rw [if_neg hrt] at h
        cases hcol : collect_data fuel payload (expected_data_length status_byte)
            [status_byte] idx 0 with
        | none => rw [hcol] at h; cases h
        | some r =>
          obtain ⟨message, next_idx, db⟩ := r
          rw [hcol] at h
          have hle := collect_data_le hcol
          cases hexp : expected_data_length status_byte with
          | none => rw [hexp] at h; simp at h; omega
          | some e =>
            rw [hexp] at h
            by_cases hdb : db = e <;> simp [hdb] at h <;> omega

theorem dispatch_status_sysex_wf {fuel : Nat} {payload : List Nat} {state : ParserState}
    {msgs m' : List (List Nat)} {status_byte idx : Nat} {s' : ParserState} {i' : Nat}
    (hs : sysex_wf state.sysex_buffer = true)
    (h : dispatch_status fuel payload state msgs status_byte idx = some (m', s', i')) :
    sysex_wf s'.sysex_buffer = true := by
  unfold dispatch_status at h
  by_cases h240 : status_byte = 0xF0
  · rw [if_pos h240] at h
    cases hext : extend_sysex fuel payload [0xF0] idx with
    | none => rw [hext] at h; cases h
    | some r =>
      obtain ⟨buf, next_idx, fin⟩ := r
      rw [hext] at h
      obtain ⟨ds, hds, hbuf⟩ := extend_sysex_struct hext
      cases fin with
      | true =>
        simp at h
        rw [← h.2.1]
        rfl
      | false =>
        simp at h
        rw [← h.2.1]
        simp only [if_neg Bool.false_ne_true, List.append_nil] at hbuf
        subst hbuf
        simp only [sysex_wf, List.singleton_append, beq_self_eq_true, Bool.true_and,
          List.all_eq_true, Bool.not_eq_true']
        exact hds
  · rw [if_neg h240] at h
    by_cases h247 : status_byte = 0xF7
    · rw [if_pos h247] at h
      cases hbuf : state.sysex_buffer <;> rw [hbuf] at h <;>
        (simp at h; rw [← h.2.1]; rfl)
    · rw [if_neg h247] at h
      by_cases hrt : 0xF8 ≤ status_byte
      · rw [if_pos hrt] at h
        simp at h
        rw [← h.2.1]
        exact hs
      · rw [if_neg hrt] at h
        cases hcol : collect_data fuel payload (expected_data_length status_byte)
            [status_byte] idx 0 with
        | none => rw [hcol] at h; cases h
        | some r =>
          obtain ⟨message, next_idx, db⟩ := r
          rw [hcol] at h
          cases hexp : expected_data_length status_byte with
          | none =>
            rw [hexp] at h
            simp at h
            rw [← h.2.1]
            exact hs
          | some e =>
            rw [hexp] at h
            by_cases hdb : db = e <;> simp [hdb] at h <;> rw [← h.2.1] <;> exact hs

theorem dispatch_status_full {fuel : Nat} {payload : List Nat} {state : ParserState}
    {msgs m' : List (List Nat)} {status_byte idx : Nat} {s' : ParserState} {i' : Nat}
    (hws : state_wf state = true)
    (hsb : status_bit status_byte = true ∨ (0x80 ≤ status_byte ∧ status_byte < 0xF0))
    (hm : ∀ m ∈ msgs, head_ok m)
    (h : dispatch_status fuel payload state msgs status_byte idx = some (m', s', i')) :
    (∀ m ∈ m', head_ok m) ∧ state_wf s' = true := by
  have hsx : sysex_wf state.sysex_buffer = true := by
    simp only [state_wf, Bool.and_eq_true] at hws
    exact hws.2
  have hge : 0x80 ≤ status_byte := by
    rcases hsb with h' | h'
    · exact le_of_status_bit h'
    · exact h'.1
  unfold dispatch_status at h
  by_cases h240 : status_byte = 0xF0
  · rw [if_pos h240] at h
    cases hext : extend_sysex fuel payload [0xF0] idx with
    | none => rw [hext] at h; cases h
    | some r =>
      obtain ⟨buf, next_idx, fin⟩ := r
      rw [hext] at h
      obtain ⟨ds, hds, hbuf⟩ := extend_sysex_struct hext
      cases fin with
      | true =>
        simp at h
        constructor
        · rw [← h.1]
          intro m hmem
          rcases List.mem_append.mp hmem with hmem' | hmem'
          · exact hm m hmem'
          · rcases List.mem_singleton.mp hmem' with rfl
            simp only [if_pos rfl] at hbuf
            exact ⟨0xF0, ds ++ [0xF7], by simpa using hbuf, by norm_num⟩
        · rw [← h.2.1]; rfl
      | false =>
        simp at h
        simp only [if_neg Bool.false_ne_true, List.append_nil] at hbuf
        subst hbuf
        constructor
        · rw [← h.1]; exact hm
        · rw [← h.2.1]
          simp only [state_wf, running_wf, sysex_wf, List.singleton_append,
            beq_self_eq_true, Bool.true_and, List.all_eq_true, Bool.not_eq_true']
          exact hds
  · rw [if_neg h240] at h
    by_cases h247 : status_byte = 0xF7
    · rw [if_pos h247] at h
      cases hbuf : state.sysex_buffer with
      | some buffer =>
        rw [hbuf] at h
        obtain ⟨rest, hrest_eq, hrest⟩ := sysex_wf_some (hbuf ▸ hsx)
        simp at h
        constructor
        · rw [← h.1]
          intro m hmem
          rcases List.mem_append.mp hmem with hmem' | hmem'
          · exact hm m hmem'
          · rcases List.mem_singleton.mp hmem' with rfl
            exact ⟨0xF0, rest ++ [0xF7], by simp [hrest_eq], by norm_num⟩
        · rw [← h.2.1]; rfl
      | none =>
        rw [hbuf] at h
        simp at h
        constructor
        · rw [← h.1]
          intro m hmem
          rcases List.mem_append.mp hmem with hmem' | hmem'
          · exact hm m hmem'
          · rcases List.mem_singleton.mp hmem' with rfl
            exact ⟨0xF7, [], rfl, by norm_num⟩
        · rw [← h.2.1]; rfl
    · rw [if_neg h247] at h
      by_cases hrt : 0xF8 ≤ status_byte
      · rw [if_pos hrt] at h
        simp at h
        constructor
        · rw [← h.1]
          intro m hmem
          rcases List.mem_append.mp hmem with hmem' | hmem'
          · exact hm m hmem'
          · rcases List.mem_singleton.mp hmem' with rfl
            exact ⟨status_byte, [], rfl, hge⟩
        · rw [← h.2.1]
          simpa [state_wf, running_wf] using hsx
      · rw [if_neg hrt] at h
        cases hcol : collect_data fuel payload (expected_data_length status_byte)
            [status_byte] idx 0 with
        | none => rw [hcol] at h; cases h
        | some r =>
          obtain ⟨message, next_idx, db⟩ := r
          rw [hcol] at h
          obtain ⟨ds, hds, hmsg⟩ := collect_data_struct hcol
          cases hexp : expected_data_length status_byte with
          | none =>
            rw [hexp] at h
            simp at h
            constructor
            · rw [← h.1]
              intro m hmem
              rcases List.mem_append.mp hmem with hmem' | hmem'
              · exact hm m hmem'
              · rcases List.mem_singleton.mp hmem' with rfl
                exact ⟨status_byte, ds, by simpa using hmsg, hge⟩
            · rw [← h.2.1]
              simpa [state_wf, running_wf] using hsx
          | some e =>
            rw [hexp] at h
            by_cases hdb : db = e
            · simp [hdb] at h
              constructor
              · rw [← h.1]
                intro m hmem
                rcases List.mem_append.mp hmem with hmem' | hmem'
                · exact hm m hmem'
                · rcases List.mem_singleton.mp hmem' with rfl
                  exact ⟨status_byte, ds, by simpa using hmsg, hge⟩
              · rw [← h.2.1]
                simp only [state_wf, Bool.and_eq_true]
                refine ⟨?_, hsx⟩
                by_cases hlt : status_byte < 0xF0
                · rw [if_pos hlt]
                  simp only [running_wf, Bool.and_eq_true, decide_eq_true_eq]
                  exact ⟨hge, hlt⟩
                · rw [if_neg hlt]
                  rfl
            · simp [hdb] at h
              constructor
              · rw [← h.1]; exact hm
              · rw [← h.2.1]; exact hws

/-! ### Facts about the three step functions -/

theorem state_wf_iff {s : ParserState} :
    state_wf s = true ↔
      running_wf s.running_status = true ∧ sysex_wf s.sysex_buffer = true := by
  simp [state_wf]

theorem status_step_isSome (fuel : Nat) (payload : List Nat) (state : ParserState)
    (msgs : List (List Nat)) (idx : Nat)
    (hlt : idx < payload.length) (hf : payload.length - idx < fuel) :
    (status_step fuel payload state msgs idx).isSome = true := by
  cases hb : payload[idx]? with
  | none =>
    rw [List.getElem?_eq_getElem hlt] at hb
    cases hb
  | some b =>
    by_cases hs : status_bit b
    · cases hdisp : dispatch_status fuel payload state msgs b (idx + 1) with
      | none =>
        have hd := dispatch_status_isSome fuel payload state msgs b (idx + 1) (by omega)
        rw [hdisp] at hd
        cases hd
      | some t =>
        obtain ⟨m', s', i'⟩ := t
        simp [status_step, hb, hs, hdisp]
    · cases hrun : state.running_status with
      | some s =>
        cases hdisp : dispatch_status fuel payload state msgs s idx with
        | none =>
          have hd := dispatch_status_isSome fuel payload state msgs s idx hf
          rw [hdisp] at hd
          cases hd
        | some t =>
          obtain ⟨m', s', i'⟩ := t
          simp [status_step, hb, hs, hrun, hdisp]
      | none => simp [status_step, hb, hs, hrun]

theorem status_step_next {fuel : Nat} {payload : List Nat} {state : ParserState}
    {msgs : List (List Nat)} {idx : Nat} {r : DecodeStep}
    (h : status_step fuel payload state msgs idx = some r) :
    ∃ m' s' i', r = .next m' s' i' ∧ idx ≤ i' := by
  cases hb : payload[idx]? with
  | none => simp [status_step, hb] at h
  | some b =>
    by_cases hs : status_bit b
    · cases hdisp : dispatch_status fuel payload state msgs b (idx + 1) with
      | none => simp [status_step, hb, hs, hdisp] at h
      | some t =>
        obtain ⟨m', s', i'⟩ := t
        have hle := dispatch_status_le hdisp
        simp [status_step, hb, hs, hdisp] at h
        exact ⟨m', s', i', h.symm, by omega⟩
    · cases hrun : state.running_status with
      | some s =>
        cases hdisp : dispatch_status fuel payload state msgs s idx with
        | none => simp [status_step, hb, hs, hrun, hdisp] at h
        | some t =>
          obtain ⟨m', s', i'⟩ := t
          have hle := dispatch_status_le hdisp
          simp [status_step, hb, hs, hrun, hdisp] at h
          exact ⟨m', s', i', h.symm, hle⟩
      | none =>
        simp [status_step, hb, hs, hrun] at h
        exact ⟨msgs, state, idx + 1, h.symm, by omega⟩

theorem status_step_sysex_wf {fuel : Nat} {payload : List Nat} {state : ParserState}
    {msgs : List (List Nat)} {idx : Nat} {r : DecodeStep}
    (hsx : sysex_wf state.sysex_buffer = true)
    (h : status_step fuel payload state msgs idx = some r) :
    sysex_wf r.state.sysex_buffer = true := by
  cases hb : payload[idx]? with
  | none => simp [status_step, hb] at h
  | some b =>
    by_cases hs : status_bit b
    · cases hdisp : dispatch_status fuel payload state msgs b (idx + 1) with
      | none => simp [status_step, hb, hs, hdisp] at h
      | some t =>
        obtain ⟨m', s', i'⟩ := t
        simp [status_step, hb, hs, hdisp] at h
        subst h
        exact dispatch_status_sysex_wf hsx hdisp
    · cases hrun : state.running_status with
      | some s =>
        cases hdisp : dispatch_status fuel payload state msgs s idx with
        | none => simp [status_step, hb, hs, hrun, hdisp] at h
        | some t =>
          obtain ⟨m', s', i'⟩ := t
          simp [status_step, hb, hs, hrun, hdisp] at h
          subst h
          exact dispatch_status_sysex_wf hsx hdisp
      | none =>
        simp [status_step, hb, hs, hrun] at h
        subst h
        exact hsx

theorem status_step_full {fuel : Nat} {payload : List Nat} {state : ParserState}
    {msgs : List (List Nat)} {idx : Nat} {r : DecodeStep}
    (hws : state_wf state = true)
    (hm : ∀ m ∈ msgs, head_ok m)
    (h : status_step fuel payload state msgs idx = some r) :
    (∀ m ∈ r.msgs, head_ok m) ∧ state_wf r.state = true := by
  cases hb : payload[idx]? with
  | none => simp [status_step, hb] at h
  | some b =>
    by_cases hs : status_bit b
    · cases hdisp : dispatch_status fuel payload state msgs b (idx + 1) with
      | none => simp [status_step, hb, hs, hdisp] at h
      | some t =>
        obtain ⟨m', s', i'⟩ := t
        simp [status_step, hb, hs, hdisp] at h
        subst h
        exact dispatch_status_full hws (Or.inl hs) hm hdisp
    · cases hrun : state.running_status with
      | some s =>
        have hr : running_wf (some s) = true := by
          rw [← hrun]
          exact (state_wf_iff.mp hws).1
        have hr' : 0x80 ≤ s ∧ s < 0xF0 := by
          simpa [running_wf] using hr
        cases hdisp : dispatch_status fuel payload state msgs s idx with
        | none => simp [status_step, hb, hs, hrun, hdisp] at h
        | some t =>
          obtain ⟨m', s', i'⟩ := t
          simp [status_step, hb, hs, hrun, hdisp] at h
          subst h
          exact dispatch_status_full hws (Or.inr hr') hm hdisp
      | none =>
        simp [status_step, hb, hs, hrun] at h
        subst h
        exact ⟨hm, hws⟩

theorem sysex_step_isSome (fuel : Nat) (payload : List Nat) (state : ParserState)
    (msgs : List (List Nat)) (idx : Nat)
    (hlt : idx < payload.length) (hf : payload.length - idx < fuel) :
    (sysex_step fuel payload state msgs idx).isSome = true := by
  cases hsx : state.sysex_buffer with
  | none =>
    have := status_step_isSome fuel payload state msgs idx hlt hf
    simpa [sysex_step, hsx] using this
  | some buffer =>
    cases hext : extend_sysex fuel payload buffer idx with
    | none =>
      have hx := extend_sysex_isSome fuel payload buffer idx hf
      rw [hext] at hx
      cases hx
    | some t =>
      obtain ⟨buf, next_idx, fin⟩ := t
      by_cases hni : next_idx = idx
      · cases fin with
        | true =>
          have := status_step_isSome fuel payload
            (⟨state.running_status, none⟩ : ParserState) (msgs ++ [buf]) idx hlt hf
          simpa [sysex_step, hsx, hext, hni] using this
        | false =>
          have := status_step_isSome fuel payload
            (⟨state.running_status, some buf⟩ : ParserState) msgs idx hlt hf
          simpa [sysex_step, hsx, hext, hni] using this
      · cases fin <;> simp [sysex_step, hsx, hext, hni]

theorem sysex_step_next {fuel : Nat} {payload : List Nat} {state : ParserState}
    {msgs : List (List Nat)} {idx : Nat} {r : DecodeStep}
    (h : sysex_step fuel payload state msgs idx = some r) :
    ∃ m' s' i', r = .next m' s' i' ∧ idx ≤ i' := by
  cases hsx : state.sysex_buffer with
  | none =>
    rw [sysex_step, hsx] at h
    exact status_step_next h
  | some buffer =>
    cases hext : extend_sysex fuel payload buffer idx with
    | none => simp [sysex_step, hsx, hext] at h
    | some t =>
      obtain ⟨buf, next_idx, fin⟩ := t
      have hle := extend_sysex_le hext
      by_cases hni : next_idx = idx
      · cases fin with
        | true =>
          simp only [sysex_step, hsx, hext, hni, if_pos rfl, reduceIte] at h
          exact status_step_next h
        | false =>
          simp only [sysex_step, hsx, hext, hni, if_pos rfl, reduceIte] at h
          exact status_step_next h
      · cases fin <;>
          (simp [sysex_step, hsx, hext, hni] at h;
           exact ⟨_, _, next_idx, h.symm, hle⟩)

theorem sysex_step_sysex_wf {fuel : Nat} {payload : List Nat} {state : ParserState}
    {msgs : List (List Nat)} {idx : Nat} {r : DecodeStep}
    (hsx : sysex_wf state.sysex_buffer = true)
    (h : sysex_step fuel payload state msgs idx = some r) :
    sysex_wf r.state.sysex_buffer = true := by
  cases hbuf : state.sysex_buffer with
  | none =>
    rw [sysex_step, hbuf] at h
    exact status_step_sysex_wf hsx h
  | some buffer =>
    obtain ⟨rest, hrest_eq, hrest⟩ := sysex_wf_some (hbuf ▸ hsx)
    cases hext : extend_sysex fuel payload buffer idx with
    | none => simp [sysex_step, hbuf, hext] at h
    | some t =>
      obtain ⟨buf, next_idx, fin⟩ := t
      obtain ⟨ds, hds, hbuf'⟩ := extend_sysex_struct hext
      by_cases hni : next_idx = idx
      · cases fin with
        | true =>
          simp only [sysex_step, hbuf, hext, hni, if_pos rfl, reduceIte] at h
          exact status_step_sysex_wf (by simp [sysex_wf]) h
        | false =>
          simp only [sysex_step, hbuf, hext, hni, if_pos rfl, reduceIte] at h
          refine status_step_sysex_wf ?_ h
          simp only [if_neg Bool.false_ne_true, List.append_nil] at hbuf'
          subst hbuf'
          subst hrest_eq
          simp only [sysex_wf, List.cons_append, beq_self_eq_true, Bool.true_and,
            List.all_eq_true, Bool.not_eq_true']
          intro d hd
          rcases List.mem_append.mp hd with hd' | hd'
          · exact hrest d hd'
          · exact hds d hd'
      · cases fin with
        | true =>
          simp [sysex_step, hbuf, hext, hni] at h
          subst h
          rfl
        | false =>
          simp [sysex_step, hbuf, hext, hni] at h
          subst h
          simp only [if_neg Bool.false_ne_true, List.append_nil] at hbuf'
          subst hbuf'
          subst hrest_eq
          simp only [DecodeStep.state, sysex_wf, List.cons_append, beq_self_eq_true,
            Bool.true_and, List.all_eq_true, Bool.not_eq_true']
          intro d hd
          rcases List.mem_append.mp hd with hd' | hd'
          · exact hrest d hd'
          · exact hds d hd'

theorem sysex_step_full {fuel : Nat} {payload : List Nat} {state : ParserState}
    {msgs : List (List Nat)} {idx : Nat} {r : DecodeStep}
    (hws : state_wf state = true)
    (hm : ∀ m ∈ msgs, head_ok m)
    (h : sysex_step fuel payload state msgs idx = some r) :
    (∀ m ∈ r.msgs, head_ok m) ∧ state_wf r.state = true := by
  have hrun : running_wf state.running_status = true := (state_wf_iff.mp hws).1
  have hsx : sysex_wf state.sysex_buffer = true := (state_wf_iff.mp hws).2
  cases hbuf : state.sysex_buffer with
  | none =>
    rw [sysex_step, hbuf] at h
    exact status_step_full hws hm h
  | some buffer =>
    obtain ⟨rest, hrest_eq, hrest⟩ := sysex_wf_some (hbuf ▸ hsx)
    cases hext : extend_sysex fuel payload buffer idx with
    | none => simp [sysex_step, hbuf, hext] at h
    | some t =>
      obtain ⟨buf, next_idx, fin⟩ := t
      obtain ⟨ds, hds, hbuf'⟩ := extend_sysex_struct hext
      have hok : head_ok buf := by
        refine ⟨0xF0, rest ++ ds ++ (if fin then [0xF7] else []), ?_, by norm_num⟩
        rw [hbuf', hrest_eq]
        simp
      have hmm : ∀ m ∈ msgs ++ [buf], head_ok m := by
        intro m hmem
        rcases List.mem_append.mp hmem with hmem' | hmem'
        · exact hm m hmem'
        · rcases List.mem_singleton.mp hmem' with rfl
          exact hok
      by_cases hni : next_idx = idx
      · cases fin with
        | true =>
          simp only [sysex_step, hbuf, hext, hni, if_pos rfl, reduceIte] at h
          refine status_step_full ?_ hmm h
          simp [state_wf, sysex_wf, hrun]
        | false =>
          simp only [sysex_step, hbuf, hext, hni, if_pos rfl, reduceIte] at h
          refine status_step_full ?_ hm h
          simp only [if_neg Bool.false_ne_true, List.append_nil] at hbuf'
          subst hbuf'
          subst hrest_eq
          simp only [state_wf, Bool.and_eq_true]
          refine ⟨hrun, ?_⟩
          simp only [sysex_wf, List.cons_append, beq_self_eq_true, Bool.true_and,
            List.all_eq_true, Bool.not_eq_true']
          intro d hd
          rcases List.mem_append.mp hd with hd' | hd'
          · exact hrest d hd'
          · exact hds d hd'
      · cases fin with
        | true =>
          simp [sysex_step, hbuf, hext, hni] at h
          subst h
          refine ⟨hmm, ?_⟩
          simp [DecodeStep.state, state_wf, sysex_wf, hrun]
        | false =>
          simp [sysex_step, hbuf, hext, hni] at h
          subst h
          refine ⟨hm, ?_⟩
          simp only [if_neg Bool.false_ne_true, List.append_nil] at hbuf'
          subst hbuf'
          subst hrest_eq
          simp only [DecodeStep.state, state_wf, Bool.and_eq_true]
          refine ⟨hrun, ?_⟩
          simp only [sysex_wf, List.cons_append, beq_self_eq_true, Bool.true_and,
            List.all_eq_true, Bool.not_eq_true']
          intro d hd
          rcases List.mem_append.mp hd with hd' | hd'
          · exact hrest d hd'
          · exact hds d hd'

theorem decode_step_isSome (fuel : Nat) (payload : List Nat) (state : ParserState)
    (msgs : List (List Nat)) (idx : Nat)
    (hf : payload.length - idx ≤ fuel) :
    (decode_step fuel payload state msgs idx).isSome = true := by
  cases hb : payload[idx]? with
  | none => simp [decode_step, hb]
  | some byte =>
    have hlt : idx < payload.length := (List.getElem?_eq_some.mp hb).1
    by_cases hs : status_bit byte
    · by_cases hend : payload.length ≤ idx + 1
      · simp [decode_step, hb, hs, hend]
      · have := sysex_step_isSome fuel payload state msgs (idx + 1) (by omega) (by omega)
        simpa [decode_step, hb, hs, hend] using this
    · simp [decode_step, hb, hs]

theorem decode_step_next {fuel : Nat} {payload : List Nat} {state : ParserState}
    {msgs m' : List (List Nat)} {idx : Nat} {s' : ParserState} {i' : Nat}
    (h : decode_step fuel payload state msgs idx = some (.next m' s' i')) :
    idx < i' ∧ idx < payload.length := by
  cases hb : payload[idx]? with
  | none => simp [decode_step, hb] at h
  | some byte =>
    have hlt : idx < payload.length := (List.getElem?_eq_some.mp hb).1
    by_cases hs : status_bit byte
    · by_cases hend : payload.length ≤ idx + 1
      · simp [decode_step, hb, hs, hend] at h
      · rw [decode_step, hb] at h
        simp only [if_pos hs, if_neg hend] at h
        obtain ⟨m2, s2, i2, heq, hge⟩ := sysex_step_next h
        cases heq
        exact ⟨by omega, hlt⟩
    · simp [decode_step, hb, hs] at h
      exact ⟨by omega, hlt⟩

theorem decode_step_sysex_wf {fuel : Nat} {payload : List Nat} {state : ParserState}
    {msgs : List (List Nat)} {idx : Nat} {r : DecodeStep}
    (hsx : sysex_wf state.sysex_buffer = true)
    (h : decode_step fuel payload state msgs idx = some r) :
    sysex_wf r.state.sysex_buffer = true := by
  cases hb : payload[idx]? with
  | none =>
    simp [decode_step, hb] at h
    subst h
    exact hsx
  | some byte =>
    by_cases hs : status_bit byte
    · by_cases hend : payload.length ≤ idx + 1
      · simp [decode_step, hb, hs, hend] at h
        subst h
        exact hsx
      · rw [decode_step, hb] at h
        simp only [if_pos hs, if_neg hend] at h
        exact sysex_step_sysex_wf hsx h
    · simp [decode_step, hb, hs] at h
      subst h
      exact hsx

theorem decode_step_full {fuel : Nat} {payload : List Nat} {state : ParserState}
    {msgs : List (List Nat)} {idx : Nat} {r : DecodeStep}
    (hws : state_wf state = true)
    (hm : ∀ m ∈ msgs, head_ok m)
    (h : decode_step fuel payload state msgs idx = some r) :
    (∀ m ∈ r.msgs, head_ok m) ∧ state_wf r.state = true := by
  cases hb : payload[idx]? with
  | none =>
    simp [decode_step, hb] at h
    subst h
    exact ⟨hm, hws⟩
  | some byte =>
    by_cases hs : status_bit byte
    · by_cases hend : payload.length ≤ idx + 1
      · simp [decode_step, hb, hs, hend] at h
        subst h
        exact ⟨hm, hws⟩
      · rw [decode_step, hb] at h
        simp only [if_pos hs, if_neg hend] at h
        exact sysex_step_full hws hm h
    · simp [decode_step, hb, hs] at h
      subst h
      exact ⟨hm, hws⟩

/-! ### The outer loop and `decode_ble_midi` -/

theorem decode_loop_isSome : ∀ {fuel : Nat} {payload : List Nat} {state : ParserState}
    {msgs : List (List Nat)} {idx : Nat},
    payload.length - idx < fuel →
    (decode_loop fuel payload state msgs idx).isSome = true := by
  intro fuel
  induction fuel with
  | zero => intro _ _ _ _ h; omega
  | succ fuel ih =>
    intro payload state msgs idx h
    rw [decode_loop]
    have hstep := decode_step_isSome fuel payload state msgs idx (by omega)
    cases hs : decode_step fuel payload state msgs idx with
    | none => rw [hs] at hstep; cases hstep
    | some r =>
      cases r with
      | done m' s' => simp
      | next m' s' i' =>
        have hlt := decode_step_next hs
        exact ih (by omega)

theorem decode_loop_sysex_wf : ∀ {fuel : Nat} {payload : List Nat} {state : ParserState}
    {msgs m' : List (List Nat)} {idx : Nat} {s' : ParserState},
    sysex_wf state.sysex_buffer = true →
    decode_loop fuel payload state msgs idx = some (m', s') →
    sysex_wf s'.sysex_buffer = true := by
  intro fuel
  induction fuel with
  | zero => intro _ _ _ _ _ _ _ h; simp [decode_loop] at h
  | succ fuel ih =>
    intro payload state msgs m' idx s' hsx h
    rw [decode_loop] at h
    cases hs : decode_step fuel payload state msgs idx with
    | none => rw [hs] at h; cases h
    | some r =>
      rw [hs] at h
      have hwf := decode_step_sysex_wf hsx hs
      cases r with
      | done m2 s2 =>
        simp only [Option.some.injEq, Prod.mk.injEq] at h
        rw [← h.2]
        exact hwf
      | next m2 s2 i2 => exact ih hwf h

theorem decode_loop_full : ∀ {fuel : Nat} {payload : List Nat} {state : ParserState}
    {msgs m' : List (List Nat)} {idx : Nat} {s' : ParserState},
    state_wf state = true →
    (∀ m ∈ msgs, head_ok m) →
    decode_loop fuel payload state msgs idx = some (m', s') →
    (∀ m ∈ m', head_ok m) ∧ state_wf s' = true := by
  intro fuel
  induction fuel with
  | zero => intro _ _ _ _ _ _ _ _ h; simp [decode_loop] at h
  | succ fuel ih =>
    intro payload state msgs m' idx s' hws hm h
    rw [decode_loop] at h
    cases hs : decode_step fuel payload state msgs idx with
    | none => rw [hs] at h; cases h
    | some r =>
      rw [hs] at h
      have hfull := decode_step_full hws hm hs
      cases r with
      | done m2 s2 =>
        simp only [Option.some.injEq, Prod.mk.injEq] at h
        rw [← h.1, ← h.2]
        exact hfull
      | next m2 s2 i2 => exact ih hfull.2 hfull.1 h

theorem decode_ble_midi_isSome (payload : List Nat) (state : ParserState) :
    (decode_ble_midi payload state).isSome = true := by
  unfold decode_ble_midi
  exact decode_loop_isSome (by omega)

theorem decode_ble_midi_short {payload : List Nat} (state : ParserState)
    (h : payload.length < 2) :
    decode_ble_midi payload state = some ([], state) := by
  unfold decode_ble_midi
  rw [decode_loop, decode_step, List.getElem?_eq_none (by omega)]

theorem decode_ble_midi_sysex_wf {payload : List Nat} {state : ParserState}
    {msgs : List (List Nat)} {state' : ParserState}
    (hsx : sysex_wf state.sysex_buffer = true)
    (h : decode_ble_midi payload state = some (msgs, state')) :
    sysex_wf state'.sysex_buffer = true := by
  unfold decode_ble_midi at h
  exact decode_loop_sysex_wf hsx h

theorem decode_ble_midi_full {payload : List Nat} {state : ParserState}
    {msgs : List (List Nat)} {state' : ParserState}
    (hws : state_wf state = true)
    (h : decode_ble_midi payload state = some (msgs, state')) :
    (∀ m ∈ msgs, head_ok m) ∧ state_wf state' = true := by
  unfold decode_ble_midi at h
  exact decode_loop_full hws (by simp) h

/-! ### The encoder -/

theorem encode_chunks_len : ∀ {fuel : Nat} {message : List Nat},
    message.length ≤ fuel →
    (encode_chunks fuel message).length = (message.length + 17) / 18 := by
  intro fuel
  induction fuel with
  | zero =>
    intro message h
    have hnil : message = [] := List.eq_nil_of_length_eq_zero (by omega)
    subst hnil
    rfl
  | succ fuel ih =>
    intro message h
    cases message with
    | nil => rfl
    | cons b rest =>
      rw [encode_chunks]
      have hd : ((b :: rest).drop 18).length = (b :: rest).length - 18 := by
        simp [List.length_drop]
      have hih := @ih ((b :: rest).drop 18) (by simp at h ⊢; omega)
      simp only [List.length_cons, hih, hd, List.length_cons]
      omega
      simp

theorem encode_chunks_mem : ∀ {fuel : Nat} {message p : List Nat},
    p ∈ encode_chunks fuel message →
    p.length ≤ 20 ∧ p.take 2 = [0x80, 0x80] := by
  intro fuel
  induction fuel with
  | zero =>
    intro message p hp
    cases message <;> simp [encode_chunks] at hp
  | succ fuel ih =>
    intro message p hp
    cases message with
    | nil => simp [encode_chunks] at hp
    | cons b rest =>
      rw [encode_chunks] at hp
      rcases List.mem_cons.mp hp with rfl | hp'
      · constructor
        · simp only [List.length_cons, List.length_take]
          omega
        · rfl
      · exact ih hp'
      simp

theorem encode_chunks_join : ∀ {fuel : Nat} {message : List Nat},
    message.length ≤ fuel →
    ((encode_chunks fuel message).map (fun p => p.drop 2)).join = message := by
  intro fuel
  induction fuel with
  | zero =>
    intro message h
    have hnil : message = [] := List.eq_nil_of_length_eq_zero (by omega)
    subst hnil
    rfl
  | succ fuel ih =>
    intro message h
    cases message with
    | nil => rfl
    | cons b rest =>
      rw [encode_chunks]
      have hih := @ih ((b :: rest).drop 18) (by simp at h ⊢; omega)
      simp only [List.map_cons, List.join_cons, hih]
      exact List.take_append_drop 18 (b :: rest)
      simp

/-! ### The claims -/

/-- C1 (counterexample).  The payload `[0x80, 0x80, 0x90, 0x3C, 0x64, 0x3E,
0x64, 0x40, 0x64]` (timestamp before the first status only) does **not**
decode to three messages: the decoder skips the running-status data bytes
`0x3E 0x64 0x40 0x64` as stray data (outer-loop step 1), emitting only
`[0x90, 0x3C, 0x64]`. -/
theorem c1_counterexample :
    (decode_ble_midi [0x80, 0x80, 0x90, 0x3C, 0x64, 0x3E, 0x64, 0x40, 0x64]
        ParserState.new).map Prod.fst = some [[0x90, 0x3C, 0x64]] ∧
    some [[0x90, 0x3C, 0x64]] ≠
      some [[0x90, 0x3C, 0x64], [0x90, 0x3E, 0x64], [0x90, 0x40, 0x64]] := by
  refine ⟨by decide, by decide⟩

/-- C1 (amended).  On the claim's payload the decoder emits exactly one
message, `[0x90, 0x3C, 0x64]`, retaining running status `0x90`; when each
running-status group is preceded by a timestamp byte the decoder emits all
three messages in order. -/
theorem c1_running_status :
    decode_ble_midi [0x80, 0x80, 0x90, 0x3C, 0x64, 0x3E, 0x64, 0x40, 0x64]
        ParserState.new = some ([[0x90, 0x3C, 0x64]], ⟨some 0x90, none⟩) ∧
    decode_ble_midi [0x80, 0x80, 0x90, 0x3C, 0x64, 0x80, 0x3E, 0x64, 0x80, 0x40, 0x64]
        ParserState.new =
      some ([[0x90, 0x3C, 0x64], [0x90, 0x3E, 0x64], [0x90, 0x40, 0x64]],
        ⟨some 0x90, none⟩) := by
  refine ⟨by decide, by decide⟩

/-- C2 (counterexample).  With the claim's framing (continuation payload
`[0x80, 0x06, 0x01, 0x80, 0xF7]`, no timestamp before the data bytes), the
decoder drops the data bytes `0x06 0x01` as stray data and emits
`[0xF0, 0x7E, 0x7F, 0xF7]`, not the claimed
`[0xF0, 0x7E, 0x7F, 0x06, 0x01, 0xF7]`. -/
theorem c2_counterexample :
    decode_ble_midi [0x80, 0x80, 0xF0, 0x7E, 0x7F] ParserState.new
      = some ([], ⟨none, some [0xF0, 0x7E, 0x7F]⟩) ∧
    decode_ble_midi [0x80, 0x06, 0x01, 0x80, 0xF7] ⟨none, some [0xF0, 0x7E, 0x7F]⟩
      = some ([[0xF0, 0x7E, 0x7F, 0xF7]], ⟨none, none⟩) ∧
    ([] ++ [[0xF0, 0x7E, 0x7F, 0xF7]] : List (List Nat))
      ≠ [[0xF0, 0x7E, 0x7F, 0x06, 0x01, 0xF7]] := by
  refine ⟨by decide, by decide, by decide⟩

/-- C2 (amended).  A SysEx split over two notifications is reassembled into
the single message `[0xF0, 0x7E, 0x7F, 0x06, 0x01, 0xF7]` when the
continuation payload carries a high-bit (timestamp) byte after its header
before the data bytes: `[0x80, 0x80, 0x06, 0x01, 0x80, 0xF7]`. -/
theorem c2_sysex_split :
    decode_ble_midi [0x80, 0x80, 0xF0, 0x7E, 0x7F] ParserState.new
      = some ([], ⟨none, some [0xF0, 0x7E, 0x7F]⟩) ∧
    decode_ble_midi [0x80, 0x80, 0x06, 0x01, 0x80, 0xF7] ⟨none, some [0xF0, 0x7E, 0x7F]⟩
      = some ([[0xF0, 0x7E, 0x7F, 0x06, 0x01, 0xF7]], ⟨none, none⟩) := by
  refine ⟨by decide, by decide⟩

/-- C3 (code evaluated at the failing input).  Dispatching the real-time
status `0xF8` with running status `0x90` retained emits `[0xF8]` but
**clears** the running status (`state.running_status = None` in the
`status >= 0xF8` arm), contradicting the claim that real-time statuses do
not alter running status. -/
theorem c3_realtime_running_status_eval :
    decode_ble_midi [0x80, 0x80, 0xF8] ⟨some 0x90, none⟩
      = some ([[0xF8]], ⟨none, none⟩) ∧
    (⟨none, none⟩ : ParserState).running_status ≠ some 0x90 := by
  refine ⟨by decide, by decide⟩

/-- C4 (counterexample).  The undefined System Common status `0xF4` is not
dropped: the decoder emits `[0xF4]` (the `expected_data_length = None` arm
pushes the message). -/
theorem c4_counterexample :
    decode_ble_midi [0x80, 0x80, 0xF4] ParserState.new
      = some ([[0xF4]], ⟨none, none⟩) ∧
    ([[0xF4]] : List (List Nat)) ≠ [] := by
  refine ⟨by decide, by decide⟩

/-- C4 (amended).  For a status byte outside the data-byte-count table and
outside the special cases (so `0xF4`/`0xF5` for u8 statuses), the dispatch
consumes the following run of data bytes, **emits** the status byte plus
those data bytes as one message, and clears running status (SysEx buffer
unchanged). -/
theorem c4_undefined_status (fuel : Nat) (payload : List Nat) (state : ParserState)
    (msgs m' : List (List Nat)) (status_byte idx : Nat) (s' : ParserState) (i' : Nat)
    (hnone : expected_data_length status_byte = none)
    (h240 : status_byte ≠ 0xF0) (h247 : status_byte ≠ 0xF7) (hrt : ¬ 0xF8 ≤ status_byte)
    (h : dispatch_status fuel payload state msgs status_byte idx = some (m', s', i')) :
    ∃ ds, (∀ d ∈ ds, status_bit d = false) ∧
      m' = msgs ++ [status_byte :: ds] ∧
      s' = ⟨none, state.sysex_buffer⟩ := by
  unfold dispatch_status at h
  rw [if_neg h240, if_neg h247, if_neg hrt] at h
  cases hcol : collect_data fuel payload (expected_data_length status_byte)
      [status_byte] idx 0 with
  | none => rw [hcol] at h; cases h
  | some t =>
    obtain ⟨message, next_idx, db⟩ := t
    rw [hcol, hnone] at h
    obtain ⟨ds, hds, hmsg⟩ := collect_data_struct hcol
    simp at h
    refine ⟨ds, hds, ?_, h.2.1.symm⟩
    rw [← h.1, hmsg]
    simp

/-- C4 (witness for the amended claim at a concrete input). -/
theorem c4_undefined_status_witness :
    ∃ ds, (∀ d ∈ ds, status_bit d = false) ∧
      ([[0xF4, 0x10]] : List (List Nat)) = [] ++ [0xF4 :: ds] ∧
      (⟨none, none⟩ : ParserState) = ⟨none, (ParserState.new).sysex_buffer⟩ :=
  c4_undefined_status 2 [0x80, 0x80, 0xF4, 0x10] ParserState.new [] [[0xF4, 0x10]]
    0xF4 3 ⟨none, none⟩ 4 (by decide) (by decide) (by decide) (by decide) (by decide)

/-- C5.  The encoder returns no packets for an empty message; for any
message it returns `⌈n/18⌉` packets, each at most 20 bytes, each beginning
`0x80 0x80`, and stripping the two header bytes from every packet and
concatenating recovers the message. -/
theorem c5_encoder :
    encode_ble_midi_packets [] = [] ∧
    ∀ message : List Nat,
      (encode_ble_midi_packets message).length = (message.length + 17) / 18 ∧
      (∀ p ∈ encode_ble_midi_packets message, p.length ≤ 20 ∧ p.take 2 = [0x80, 0x80]) ∧
      ((encode_ble_midi_packets message).map (fun p => p.drop 2)).join = message := by
  refine ⟨rfl, fun message => ⟨?_, ?_, ?_⟩⟩
  · unfold encode_ble_midi_packets
    by_cases hm : message.isEmpty
    · rw [if_pos hm]
      have hnil : message = [] := by simpa using hm
      subst hnil
      rfl
    · rw [if_neg hm]
      exact encode_chunks_len le_rfl
  · intro p hp
    unfold encode_ble_midi_packets at hp
    by_cases hm : message.isEmpty
    · rw [if_pos hm] at hp
      simp at hp
    · rw [if_neg hm] at hp
      exact encode_chunks_mem hp
  · unfold encode_ble_midi_packets
    by_cases hm : message.isEmpty
    · rw [if_pos hm]
      have hnil : message = [] := by simpa using hm
      subst hnil
      rfl
    · rw [if_neg hm]
      exact encode_chunks_join le_rfl

/-- C5 (witness at a 50-byte message: 3 packets). -/
theorem c5_encoder_witness :
    ((encode_ble_midi_packets (List.replicate 50 7)).length
        = ((List.replicate 50 7).length + 17) / 18) ∧
    ((128 :: 128 :: List.replicate 18 7 : List Nat).length ≤ 20 ∧
      (128 :: 128 :: List.replicate 18 7 : List Nat).take 2 = [0x80, 0x80]) ∧
    ((encode_ble_midi_packets (List.replicate 50 7)).map (fun p => p.drop 2)).join
      = List.replicate 50 7 :=
  ⟨(c5_encoder.2 (List.replicate 50 7)).1,
   (c5_encoder.2 (List.replicate 50 7)).2.1 (128 :: 128 :: List.replicate 18 7) (by decide),
   (c5_encoder.2 (List.replicate 50 7)).2.2⟩

/-- C6.  A non-empty decoded message is delivered by `process_notification`
iff `should_ignore` of its first byte is false, and `should_ignore` matches
the table: `0xF0`/Sysex, `0xF1`/Time, `0xF8`/Time, `0xFE`/ActiveSense. -/
theorem c6_filter (ignore_flags : Ignore) (payload : List Nat) (state : ParserState)
    (msgs delivered : List (List Nat)) (st st2 : ParserState) (M : List Nat)
    (hdec : decode_ble_midi payload state = some (msgs, st))
    (hproc : process_notification ignore_flags payload state = some (delivered, st2))
    (hM : M ∈ msgs) (hne : M ≠ []) :
    (M ∈ delivered ↔ should_ignore ignore_flags (M.headD 0) = false) ∧
    ∀ (S : Ignore) (b : Nat),
      should_ignore S b = true ↔
        ((b = 0xF0 ∧ S.sysex = true) ∨ (b = 0xF1 ∧ S.time = true) ∨
         (b = 0xF8 ∧ S.time = true) ∨ (b = 0xFE ∧ S.activeSense = true)) := by
  obtain ⟨b0, t0, rfl⟩ : ∃ b0 t0, M = b0 :: t0 := by
    cases M with
    | nil => exact absurd rfl hne
    | cons x xs => exact ⟨x, xs, rfl⟩
  constructor
  · unfold process_notification at hproc
    by_cases hlen : payload.length < 2
    · rw [if_pos hlen] at hproc
      rw [decode_ble_midi_short state hlen] at hdec
      simp at hdec
      rw [hdec.1] at hM
      simp at hM
    · rw [if_neg hlen, hdec] at hproc
      simp at hproc
      rw [← hproc.1]
      constructor
      · intro hmem
        have hpass := (List.mem_filter.mp hmem).2
        simpa [message_passes] using hpass
      · intro hig
        refine List.mem_filter.mpr ⟨hM, ?_⟩
        simp only [message_passes, List.isEmpty_cons, Bool.not_false, Bool.true_and,
          Bool.not_eq_true']
        simpa using hig
  · intro S b
    simp only [should_ignore, Bool.or_eq_true, Bool.and_eq_true, beq_iff_eq]
    tauto

/-- C6 (witness: with `ActiveSense` ignored, `[0xFE]` is decoded but not
delivered). -/
theorem c6_filter_witness :
    (([0xFE] : List Nat) ∈ ([] : List (List Nat)) ↔
      should_ignore ⟨false, false, true⟩ 0xFE = false) ∧
    ∀ (S : Ignore) (b : Nat),
      should_ignore S b = true ↔
        ((b = 0xF0 ∧ S.sysex = true) ∨ (b = 0xF1 ∧ S.time = true) ∨
         (b = 0xF8 ∧ S.time = true) ∨ (b = 0xFE ∧ S.activeSense = true)) :=
  c6_filter ⟨false, false, true⟩ [0x80, 0x80, 0xFE] ParserState.new
    [[0xFE]] [] ⟨none, none⟩ ⟨none, none⟩ [0xFE]
    (by decide) (by decide) (by decide) (by decide)

/-- C7.  The decoder and the notification handler never fail on any payload
and any parser state (the `Option` result, whose `none` models an
out-of-bounds panic or fuel exhaustion, is always `some`), and any payload
shorter than 2 bytes produces no messages and leaves the state unchanged. -/
theorem c7_decoder_total (payload : List Nat) (state : ParserState)
    (ignore_flags : Ignore) :
    (decode_ble_midi payload state).isSome = true ∧
    (process_notification ignore_flags payload state).isSome = true ∧
    (payload.length < 2 → decode_ble_midi payload state = some ([], state)) ∧
    (payload.length < 2 →
      process_notification ignore_flags payload state = some ([], state)) := by
  refine ⟨decode_ble_midi_isSome payload state, ?_,
    fun h => decode_ble_midi_short state h, ?_⟩
  · unfold process_notification
    by_cases hlen : payload.length < 2
    · rw [if_pos hlen]
      rfl
    · rw [if_neg hlen]
      have hd := decode_ble_midi_isSome payload state
      cases hdec : decode_ble_midi payload state with
      | none => rw [hdec] at hd; cases hd
      | some r =>
        obtain ⟨m, s⟩ := r
        rfl
  · intro hlen
    unfold process_notification
    rw [if_pos hlen]

/-- C7 (witness at the 1-byte payload `[5]`). -/
theorem c7_decoder_total_witness :
    decode_ble_midi [5] ParserState.new = some ([], ParserState.new) ∧
    process_notification ⟨false, false, false⟩ [5] ParserState.new
      = some ([], ParserState.new) :=
  ⟨(c7_decoder_total [5] ParserState.new ⟨false, false, false⟩).2.2.1 (by decide),
   (c7_decoder_total [5] ParserState.new ⟨false, false, false⟩).2.2.2 (by decide)⟩

/-- C8.  Port equality compares exactly the adapter index and the peripheral
identity; the input/output wrappers delegate to it, and the name field plays
no role. -/
theorem c8_port_eq {PeripheralId : Type} [DecidableEq PeripheralId]
    (p q : BluetoothPort PeripheralId) :
    (BluetoothPort.beq p q = true ↔
      p.adapter_index = q.adapter_index ∧ p.peripheral_id = q.peripheral_id) ∧
    (MidiInputPort.beq ⟨p⟩ ⟨q⟩ = BluetoothPort.beq p q) ∧
    (MidiOutputPort.beq ⟨p⟩ ⟨q⟩ = BluetoothPort.beq p q) ∧
    ∀ m n : String,
      BluetoothPort.beq ⟨p.adapter_index, p.peripheral_id, m⟩
        ⟨q.adapter_index, q.peripheral_id, n⟩ = BluetoothPort.beq p q := by
  refine ⟨?_, rfl, rfl, fun m n => rfl⟩
  simp [BluetoothPort.beq]

/-- C9 (counterexample).  For the (unreachable but arbitrary) parser state
with running status `0x05`, the decoder emits the message
`[0x05, 0x40, 0x41]`, whose first byte is not a status byte. -/
theorem c9_counterexample :
    decode_ble_midi [0x80, 0x80, 0x40, 0x41] ⟨some 0x05, none⟩
      = some ([[0x05, 0x40, 0x41]], ⟨none, none⟩) ∧
    ¬ (0x80 ≤ (0x05 : Nat)) := by
  refine ⟨by decide, by decide⟩

/-- C9 (amended).  For every payload and every **well-formed** parser state
(running status, if retained, a channel-voice status `0x80..=0xEF`; SysEx
buffer, if present, `0xF0` followed by data bytes), every decoded message is
non-empty and begins with a byte `≥ 0x80`. -/
theorem c9_message_heads (payload : List Nat) (state : ParserState)
    (msgs : List (List Nat)) (state' : ParserState)
    (hws : state_wf state = true)
    (h : decode_ble_midi payload state = some (msgs, state')) :
    ∀ m ∈ msgs, ∃ b t, m = b :: t ∧ 0x80 ≤ b := by
  intro m hm
  exact (decode_ble_midi_full hws h).1 m hm

/-- C9 (witness at a concrete payload and the fresh state). -/
theorem c9_message_heads_witness :
    ∃ b t, ([0x90, 0x3C, 0x64] : List Nat) = b :: t ∧ 0x80 ≤ b :=
  c9_message_heads [0x80, 0x80, 0x90, 0x3C, 0x64] ParserState.new
    [[0x90, 0x3C, 0x64]] ⟨some 0x90, none⟩ (by decide) (by decide)
    [0x90, 0x3C, 0x64] (by decide)

/-- C10.  The SysEx-buffer invariant (non-empty, starts with `0xF0`, later
bytes have the top bit clear, hence no retained `0xF7`) holds for the fresh
parser state and is preserved by every decoder call on every payload. -/
theorem c10_sysex_invariant :
    sysex_wf (ParserState.new).sysex_buffer = true ∧
    ∀ (payload : List Nat) (state : ParserState) (msgs : List (List Nat))
      (state' : ParserState),
      sysex_wf state.sysex_buffer = true →
      decode_ble_midi payload state = some (msgs, state') →
      sysex_wf state'.sysex_buffer = true :=
  ⟨rfl, fun payload state msgs state' hsx h => decode_ble_midi_sysex_wf hsx h⟩

/-- C10 (witness: a SysEx carried across a payload boundary satisfies the
invariant). -/
theorem c10_sysex_invariant_witness :
    sysex_wf (ParserState.mk none (some [0xF0, 0x01, 0x02])).sysex_buffer = true :=
  c10_sysex_invariant.2 [0x80, 0x80, 0xF0, 0x01, 0x02] ParserState.new []
    ⟨none, some [0xF0, 0x01, 0x02]⟩ (by decide) (by decide)

/-- C8 (witness: name irrelevance at a concrete pair of ports over `Nat`
identities). -/
theorem c8_port_eq_witness :
    BluetoothPort.beq (⟨0, 1, "c"⟩ : BluetoothPort Nat) ⟨0, 1, "d"⟩
      = BluetoothPort.beq (⟨0, 1, "a"⟩ : BluetoothPort Nat) ⟨0, 1, "b"⟩ :=
  (c8_port_eq (⟨0, 1, "a"⟩ : BluetoothPort Nat) ⟨0, 1, "b"⟩).2.2.2 "c" "d"

end BleMidi
